import Mathlib

/-!
  Verification of the core ledger, reconciliation and backup logic of the
  Custom-AI-Blockchain repository (Go), as a shallow embedding in Lean 4.

  Correspondence to the source:

  * `Transaction`, `Block` — `blockchain_logic/common.go`, `block.go`.
  * `CalculateHash` — `Block.CalculateHash` (block.go): SHA-256 of the JSON
    encoding of the five fields index, timestamp, transactions, prev_hash,
    nonce. The composite of the serializer and SHA-256 is modelled by an
    abstract parameter `hashFn : HashInput → String`; every definition and
    theorem is parametric in it, since the claims only depend on the hash
    being a deterministic function of those five fields.
  * `Mine` — `Block.Mine` (block.go). The Go loop has no fuel bound and may
    in principle diverge, so the embedding takes an explicit fuel argument
    and returns `Option Block`: `some` is a run of the Go loop that halted.
  * `ValidateBlock` — `Block.ValidateBlock` (block.go).
  * `AddBlock` — `Blockchain.AddBlock` (blockchain.go). The IPFS handler is
    modelled by two function parameters `store` (ipfsHandler.StoreBlock) and
    `pin` (ipfsHandler.Pin). The Go method mutates the receiver only at the
    final append, so the embedding returns the post-state and the error:
    on an error the post-state equals the pre-state.
  * `IsValid` — `Blockchain.IsValid` (blockchain.go).
  * `RestoreFromIPFS` — `Blockchain.RestoreFromIPFS` (blockchain.go), with
    the IPFS fetch modelled by a function parameter `retrieve`
    (ipfsHandler.RetrieveBlockchain).
  * `handleNewBlock`, `handleChainResponse`, `handleIPFSBackup` — the three
    corresponding branches of `PeerNetwork.handleMessage` (network.go),
    taken at the point where the message content has been recovered at its
    concrete type. Broadcasting is modelled by the list of outbound
    messages, one per connected peer (`BroadcastMessage` ranges over the
    peer map and sends to each).
-/

namespace AIBlockchain

/-- Transaction, common.go. The amount is a float64 in Go; none of the
verified properties inspect it. -/
structure Transaction where
  Sender : String
  Receiver : String
  Amount : Float
  Timestamp : Int

/-- Block, block.go. Difficulty is a Go int used as a repetition count in
strings.Repeat, which panics on a negative count; it is modelled as a Nat. -/
structure Block where
  Index : Int
  Timestamp : Int
  Transactions : List Transaction
  PrevHash : String
  Hash : String
  Nonce : Int
  Difficulty : Nat

/-- The five fields fed to json.Marshal inside Block.CalculateHash, in
field order. The Hash and Difficulty fields of the block are not hashed. -/
structure HashInput where
  Index : Int
  Timestamp : Int
  Transactions : List Transaction
  PrevHash : String
  Nonce : Int

/-- Model of strings.HasPrefix from the Go standard library. -/
def strHasPref (s pre : String) : Bool :=
  List.isPrefixOf pre.data s.data

/-- Model of strings.Repeat applied to the one-character string 0: the
difficulty target of block.go. -/
def target (difficulty : Nat) : String :=
  String.mk (List.replicate difficulty (Char.ofNat 48))

/-- Block.CalculateHash, block.go: the hash is a function of exactly the
five fields of `HashInput`. -/
def CalculateHash (hashFn : HashInput → String) (b : Block) : String :=
  hashFn { Index := b.Index, Timestamp := b.Timestamp,
           Transactions := b.Transactions, PrevHash := b.PrevHash,
           Nonce := b.Nonce }

/-- Block.Mine, block.go, with explicit fuel (the Go loop is unbounded).
Each iteration stores the recomputed hash in the block, returns it when the
hash meets the difficulty target, and otherwise increments the nonce. -/
def Mine (hashFn : HashInput → String) : Nat → Block → Option Block
  | 0, _ => Option.none
  | fuel + 1, b =>
    let mined : Block := { b with Hash := CalculateHash hashFn b }
    if strHasPref mined.Hash (target b.Difficulty) then some mined
    else Mine hashFn fuel { mined with Nonce := mined.Nonce + 1 }

/-- Block.ValidateBlock, block.go: recompute the hash, compare with the
stored hash, then check the leading-zero target. -/
def ValidateBlock (hashFn : HashInput → String) (b : Block) : Bool :=
  let calculatedHash := CalculateHash hashFn b
  if calculatedHash ≠ b.Hash then false
  else strHasPref b.Hash (target b.Difficulty)

/-- Blockchain, blockchain.go: the block list and the chain-wide
difficulty. The ML validator and the IPFS handler carry no chain state; the
IPFS handler is modelled where used, as function parameters. -/
structure Blockchain where
  Blocks : List Block
  Difficulty : Nat

/-- The errors Blockchain.AddBlock can return, blockchain.go, with the
message of the wrapped IPFS error where Go wraps one. -/
inductive ChainError where
  | invalidPrevHash
  | invalidProofOfWork
  | storeFailed (msg : String)
  | pinFailed (msg : String)

/-- The check block of Blockchain.AddBlock, blockchain.go: for a non-empty
chain the linkage check runs first, then the proof-of-work check; an empty
chain skips both. The Go method mutates the receiver only at the final
append, so `AddBlock` below returns the pre-state whenever it returns an
error. -/
def checkBlock (hashFn : HashInput → String)
    (bc : Blockchain) (block : Block) : Option ChainError :=
  match bc.Blocks.getLast? with
  | Option.none => Option.none
  | some previousBlock =>
    if block.PrevHash ≠ previousBlock.Hash then some ChainError.invalidPrevHash
    else if ¬ ValidateBlock hashFn block then some ChainError.invalidProofOfWork
    else Option.none

/-- Blockchain.AddBlock continued: after the checks, store and pin the
block in IPFS, and only after both succeed append it. -/
def AddBlock (hashFn : HashInput → String)
    (store : Block → Except String String) (pin : String → Except String Unit)
    (bc : Blockchain) (block : Block) : Blockchain × Option ChainError :=
  match checkBlock hashFn bc block with
  | some e => (bc, some e)
  | Option.none =>
    match store block with
    | Except.error m => (bc, some (ChainError.storeFailed m))
    | Except.ok ipfsHash =>
      match pin ipfsHash with
      | Except.error m => (bc, some (ChainError.pinFailed m))
      | Except.ok _ => ({ bc with Blocks := bc.Blocks ++ [block] }, Option.none)

/-- One step of the validation loop shared by Blockchain.IsValid and
Blockchain.RestoreFromIPFS: linkage to the predecessor, then proof of work. -/
def pairValid (hashFn : HashInput → String) (previousBlock currentBlock : Block) : Bool :=
  (currentBlock.PrevHash == previousBlock.Hash) && ValidateBlock hashFn currentBlock

/-- The loop of Blockchain.IsValid over a block list: for every index i ≥ 1
check `pairValid` of blocks i-1 and i, returning false at the first failure. -/
def chainValidFrom (hashFn : HashInput → String) : List Block → Bool
  | previousBlock :: currentBlock :: rest =>
    pairValid hashFn previousBlock currentBlock
      && chainValidFrom hashFn (currentBlock :: rest)
  | _ => true

/-- Blockchain.IsValid, blockchain.go. -/
def IsValid (hashFn : HashInput → String) (bc : Blockchain) : Bool :=
  chainValidFrom hashFn bc.Blocks

/-- Blockchain.RestoreFromIPFS, blockchain.go: fetch the block list for the
content hash, run the same pairwise validation loop as IsValid, and install
the list only if every pair passes; the Go method returns before mutating
the receiver on a fetch or validation error. -/
def RestoreFromIPFS (hashFn : HashInput → String)
    (retrieve : String → Except String (List Block))
    (bc : Blockchain) (h : String) : Blockchain × Option String :=
  match retrieve h with
  | Except.error m => (bc, some ("failed to restore blockchain from IPFS: " ++ m))
  | Except.ok blocks =>
    if chainValidFrom hashFn blocks then
      ({ bc with Blocks := blocks }, Option.none)
    else (bc, some "invalid blockchain data")

/-- The message kinds of network.go. -/
inductive MessageType where
  | newBlock
  | newTx
  | blockchainRequest
  | blockchainResponse
  | ipfsBackup

/-- The concrete payloads the handler branches of network.go recover from
the generic content field, one per message kind it inspects. -/
inductive MessageContent where
  | ofBlock (b : Block)
  | ofTx (t : Transaction)
  | ofChain (bc : Blockchain)
  | ofHash (s : String)

/-- BlockchainMessage, network.go. The Go field From is a keyword in Lean
and is renamed fromAddr; To is likewise renamed toAddr, omitted when empty and modelled as Option. -/
structure BlockchainMessage where
  type : MessageType
  content : MessageContent
  fromAddr : String
  toAddr : Option String

/-- A message handed to the socket of one connected peer. -/
structure OutMsg where
  peer : String
  msg : BlockchainMessage

/-- PeerNetwork.BroadcastNewBlock with PeerNetwork.BroadcastMessage,
network.go: the NEW_BLOCK message carrying the block, sent to every
currently connected peer. -/
def BroadcastNewBlock (myAddress : String) (peers : List String) (b : Block) :
    List OutMsg :=
  peers.map fun p =>
    { peer := p
      msg := { type := MessageType.newBlock, content := MessageContent.ofBlock b
               fromAddr := myAddress, toAddr := Option.none } }

/-- The NEW_BLOCK branch of PeerNetwork.handleMessage, network.go: attempt
AddBlock; on success flood the block to every connected peer, on failure
only log — no message is sent. The result is the post-state of the local
chain and the outbound messages. -/
def handleNewBlock (hashFn : HashInput → String)
    (store : Block → Except String String) (pin : String → Except String Unit)
    (myAddress : String) (peers : List String)
    (bc : Blockchain) (b : Block) : Blockchain × List OutMsg :=
  match AddBlock hashFn store pin bc b with
  | (bc2, Option.none) => (bc2, BroadcastNewBlock myAddress peers b)
  | (bc2, some _) => (bc2, [])

/-- The BLOCKCHAIN_RESPONSE branch of PeerNetwork.handleMessage,
network.go: adopt the remote chain when the local chain is nil, or when the
remote one has strictly more blocks; in either case only if it passes
IsValid. -/
def handleChainResponse (hashFn : HashInput → String)
    (localChain : Option Blockchain) (remote : Blockchain) : Option Blockchain :=
  if (match localChain with
      | Option.none => true
      | some bc => remote.Blocks.length > bc.Blocks.length) then
    if IsValid hashFn remote then some remote else localChain
  else localChain

/-- The IPFS_BACKUP branch of PeerNetwork.handleMessage, network.go: fetch
the announced chain, and only when it is strictly longer than the local one
run RestoreFromIPFS (which fetches again — the fetch is a deterministic
function here — and installs the list only if every adjacent pair passes
validation); every error path leaves the local chain unchanged. -/
def handleIPFSBackup (hashFn : HashInput → String)
    (retrieve : String → Except String (List Block))
    (bc : Blockchain) (h : String) : Blockchain :=
  match retrieve h with
  | Except.error _ => bc
  | Except.ok tempBlocks =>
    if tempBlocks.length > bc.Blocks.length then
      (RestoreFromIPFS hashFn retrieve bc h).1
    else bc

/-- A sequence of AddBlock calls, stopping at the first error: the chains
reachable from a given chain by successful appends. -/
def appendAll (hashFn : HashInput → String)
    (store : Block → Except String String) (pin : String → Except String Unit)
    (bc : Blockchain) : List Block → Blockchain × Option ChainError
  | [] => (bc, Option.none)
  | b :: rest =>
    match AddBlock hashFn store pin bc b with
    | (bc2, Option.none) => appendAll hashFn store pin bc2 rest
    | (bc2, some e) => (bc2, some e)

/-- The number of leading zero characters of a character list: the measure
the difficulty target speaks about. -/
def leadingZeroCount : List Char → Nat
  | [] => 0
  | c :: cs => if c = Char.ofNat 48 then leadingZeroCount cs + 1 else 0

/-- Spec wording, block invariants: the stored hash is the recomputed hash
and has at least difficulty-many leading zero characters. -/
def specBlockHashOk (hashFn : HashInput → String) (b : Block) : Prop :=
  CalculateHash hashFn b = b.Hash ∧ b.Difficulty ≤ leadingZeroCount b.Hash.data

/-- Spec wording, data model: the genesis block has index 0, an empty
transaction list and an empty previous hash. -/
def specGenesisWellFormed (b : Block) : Prop :=
  b.Index = 0 ∧ b.Transactions = [] ∧ b.PrevHash = ""

/-- Spec wording, chain invariant, the part about subsequent blocks: every
block at an index of one or more links to the hash of its predecessor and
satisfies the block hash invariants; the subsequent block is written at
index i + 1 and the predecessor at i. -/
def specSubsequentOk (hashFn : HashInput → String) (blocks : List Block) : Prop :=
  ∀ i : Nat, (h : i + 1 < blocks.length) →
    (blocks.get ⟨i + 1, h⟩).PrevHash = (blocks.get ⟨i, by omega⟩).Hash
      ∧ specBlockHashOk hashFn (blocks.get ⟨i + 1, h⟩)

/-- Spec wording, chain invariant in full: genesis well-formed and every
subsequent block valid relative to its predecessor. Stated from the spec to
compare against the IsValid of the code. -/
def specChainInvariant (hashFn : HashInput → String) (bc : Blockchain) : Prop :=
  (∀ g, bc.Blocks.head? = some g → specGenesisWellFormed g)
    ∧ specSubsequentOk hashFn bc.Blocks

/-! Concrete instances used by witnesses and counterexamples. `hashFn0` is
one admissible model of the hash: every claim is proved for an arbitrary
`hashFn`, and the concrete runs only instantiate them. -/

/-- A concrete model hash function, constantly the string 00. -/
def hashFn0 : HashInput → String := fun _ => "00"

/-- A genesis block that is valid under `hashFn0`. -/
def g0 : Block :=
  { Index := 0, Timestamp := 0, Transactions := [], PrevHash := ""
    Hash := "00", Nonce := 0, Difficulty := 0 }

/-- A successor of `g0` that is valid under `hashFn0`. -/
def b1 : Block :=
  { Index := 1, Timestamp := 0, Transactions := [], PrevHash := "00"
    Hash := "00", Nonce := 0, Difficulty := 0 }

/-- A block whose previous hash does not match the hash of `g0`. -/
def bBadLink : Block :=
  { Index := 1, Timestamp := 0, Transactions := [], PrevHash := "xx"
    Hash := "00", Nonce := 0, Difficulty := 0 }

/-- A block linked to `g0` whose stored hash differs from its recomputed
hash under `hashFn0`. -/
def bBadPow : Block :=
  { Index := 1, Timestamp := 0, Transactions := [], PrevHash := "00"
    Hash := "zz", Nonce := 0, Difficulty := 0 }

/-- An ill-formed first block: nonzero index and nonempty previous hash,
yet hash-consistent under `hashFn0`. -/
def badG : Block :=
  { Index := 1, Timestamp := 0, Transactions := [], PrevHash := "x"
    Hash := "00", Nonce := 0, Difficulty := 0 }

/-- The empty chain. -/
def bc0 : Blockchain := { Blocks := [], Difficulty := 0 }

/-- The one-block chain holding `g0`. -/
def bc1 : Blockchain := { Blocks := [g0], Difficulty := 0 }

/-- The two-block chain holding `g0` and `b1`; valid under `hashFn0`. -/
def bc2 : Blockchain := { Blocks := [g0, b1], Difficulty := 0 }

/-- The one-block chain holding the ill-formed first block `badG`. -/
def badChain : Blockchain := { Blocks := [badG], Difficulty := 0 }

/-- An IPFS store stub that always succeeds. -/
def storeOk : Block → Except String String := fun _ => Except.ok "Qm"

/-- An IPFS store stub that always fails. -/
def storeFail : Block → Except String String := fun _ => Except.error "store down"

/-- An IPFS pin stub that always succeeds. -/
def pinOk : String → Except String Unit := fun _ => Except.ok ()

/-- An IPFS fetch stub returning a fixed block list. -/
def retrieveOf (blocks : List Block) : String → Except String (List Block) :=
  fun _ => Except.ok blocks

/-- An IPFS fetch stub that always fails. -/
def retrieveFail : String → Except String (List Block) :=
  fun _ => Except.error "fetch failed"

/-! Helper lemmas. -/

/-- A replicate of zero characters is a prefix of a list exactly when the
list has at least that many leading zero characters. -/
theorem replicate_zeros_isPref (d : Nat) :
    ∀ l : List Char,
      List.isPrefixOf (List.replicate d (Char.ofNat 48)) l = true
        ↔ d ≤ leadingZeroCount l := by
  induction d with
  | zero => intro l; simp [List.isPrefixOf]
  | succ d ih =>
    intro l
    cases l with
    | nil => simp [List.replicate_succ, List.isPrefixOf, leadingZeroCount]
    | cons c cs =>
      by_cases hc : c = Char.ofNat 48
      · subst hc
        simp [List.replicate_succ, List.isPrefixOf, leadingZeroCount, ih cs]
      · simp [List.replicate_succ, List.isPrefixOf, leadingZeroCount, hc, Ne.symm hc]

/-- The difficulty target check of block.go counts leading zero characters. -/
theorem strHasPref_target_iff (s : String) (d : Nat) :
    strHasPref s (target d) = true ↔ d ≤ leadingZeroCount s.data :=
  replicate_zeros_isPref d s.data

/-- Block.ValidateBlock holds exactly when the block satisfies the two hash
invariants of the spec. -/
theorem validateBlock_iff (hashFn : HashInput → String) (b : Block) :
    ValidateBlock hashFn b = true ↔ specBlockHashOk hashFn b := by
  by_cases h : CalculateHash hashFn b = b.Hash
  · simp [ValidateBlock, h, specBlockHashOk, strHasPref_target_iff]
  · simp [ValidateBlock, h, specBlockHashOk]

/-- One step of the chain validation loop, in the vocabulary of the spec. -/
theorem pairValid_iff (hashFn : HashInput → String) (previousBlock b : Block) :
    pairValid hashFn previousBlock b = true
      ↔ b.PrevHash = previousBlock.Hash ∧ specBlockHashOk hashFn b := by
  simp [pairValid, validateBlock_iff]

/-- CalculateHash ignores the stored hash field. -/
theorem calculateHash_set_hash (hashFn : HashInput → String) (b : Block) (h : String) :
    CalculateHash hashFn { b with Hash := h } = CalculateHash hashFn b := rfl

/-- On any error, AddBlock leaves the chain untouched. -/
theorem addBlock_error_unchanged (hashFn : HashInput → String)
    (store : Block → Except String String) (pin : String → Except String Unit)
    (bc : Blockchain) (b : Block) (e : ChainError)
    (h : (AddBlock hashFn store pin bc b).2 = some e) :
    (AddBlock hashFn store pin bc b).1 = bc := by
  unfold AddBlock at h ⊢
  cases hc : checkBlock hashFn bc b with
  | none =>
    cases hs : store b with
    | error m => simp [hc, hs]
    | ok ch =>
      cases hp : pin ch with
      | error m => simp [hc, hs, hp]
      | ok u => simp [hc, hs, hp] at h
  | some e2 => simp [hc]

/-- On success, AddBlock appends the block at the end of the chain. -/
theorem addBlock_ok_appends (hashFn : HashInput → String)
    (store : Block → Except String String) (pin : String → Except String Unit)
    (bc : Blockchain) (b : Block)
    (h : (AddBlock hashFn store pin bc b).2 = Option.none) :
    (AddBlock hashFn store pin bc b).1
      = { bc with Blocks := bc.Blocks ++ [b] } := by
  unfold AddBlock at h ⊢
  cases hc : checkBlock hashFn bc b with
  | none =>
    cases hs : store b with
    | error m => simp [hc, hs] at h
    | ok ch =>
      cases hp : pin ch with
      | error m => simp [hc, hs, hp] at h
      | ok u => simp [hc, hs, hp]
  | some e2 => simp [hc] at h

/-- On success against a non-empty chain, the appended block passed the
linkage and proof-of-work checks. -/
theorem addBlock_ok_checked (hashFn : HashInput → String)
    (store : Block → Except String String) (pin : String → Except String Unit)
    (bc : Blockchain) (b previousBlock : Block)
    (hl : bc.Blocks.getLast? = some previousBlock)
    (h : (AddBlock hashFn store pin bc b).2 = Option.none) :
    b.PrevHash = previousBlock.Hash ∧ ValidateBlock hashFn b = true := by
  unfold AddBlock at h
  cases hc : checkBlock hashFn bc b with
  | none =>
    unfold checkBlock at hc
    rw [hl] at hc
    by_cases h1 : b.PrevHash = previousBlock.Hash
    · by_cases h2 : ValidateBlock hashFn b = true
      · exact ⟨h1, h2⟩
      · simp [h1, h2] at hc
    · simp [h1] at hc
  | some e2 => rw [hc] at h; simp at h

/-- Appending a block that passes the pair check onto a valid chain keeps
the validation loop succeeding. -/
theorem chainValidFrom_append (hashFn : HashInput → String) :
    ∀ (bs : List Block) (b : Block),
      chainValidFrom hashFn bs = true →
      (∀ previousBlock, bs.getLast? = some previousBlock →
        pairValid hashFn previousBlock b = true) →
      chainValidFrom hashFn (bs ++ [b]) = true := by
  intro bs
  induction bs with
  | nil => intro b _ _; simp [chainValidFrom]
  | cons a tail ih =>
    intro b hv hlast
    cases tail with
    | nil =>
      simp only [List.cons_append, List.nil_append]
      simp [chainValidFrom, hlast a rfl]
    | cons c rest =>
      simp only [chainValidFrom, Bool.and_eq_true] at hv
      have htail := ih b hv.2 (fun p hp => hlast p (by rw [List.getLast?_cons_cons]; exact hp))
      simp only [List.cons_append]
      simp [chainValidFrom, hv.1]
      exact htail

/-- A successful AddBlock preserves IsValid. -/
theorem isValid_addBlock (hashFn : HashInput → String)
    (store : Block → Except String String) (pin : String → Except String Unit)
    (bc : Blockchain) (b : Block)
    (hv : IsValid hashFn bc = true)
    (h : (AddBlock hashFn store pin bc b).2 = Option.none) :
    IsValid hashFn (AddBlock hashFn store pin bc b).1 = true := by
  rw [addBlock_ok_appends hashFn store pin bc b h]
  unfold IsValid at hv ⊢
  refine chainValidFrom_append hashFn bc.Blocks b hv ?_
  intro previousBlock hl
  have hck := addBlock_ok_checked hashFn store pin bc b previousBlock hl h
  simp [pairValid, hck.1, hck.2]

/-- Every chain reached from a valid chain by successful appends is valid. -/
theorem appendAll_valid (hashFn : HashInput → String)
    (store : Block → Except String String) (pin : String → Except String Unit) :
    ∀ (bs : List Block) (bc bc2 : Blockchain),
      IsValid hashFn bc = true →
      appendAll hashFn store pin bc bs = (bc2, Option.none) →
      IsValid hashFn bc2 = true := by
  intro bs
  induction bs with
  | nil =>
    intro bc bc2 hv h
    simp [appendAll] at h
    rw [← h]
    exact hv
  | cons b rest ih =>
    intro bc bc2 hv h
    unfold appendAll at h
    cases hstep : (AddBlock hashFn store pin bc b).2 with
    | none =>
      have hv2 : IsValid hashFn (AddBlock hashFn store pin bc b).1 = true :=
        isValid_addBlock hashFn store pin bc b hv hstep
      rw [show AddBlock hashFn store pin bc b
            = ((AddBlock hashFn store pin bc b).1, Option.none) from by
          rw [← hstep]] at h
      exact ih (AddBlock hashFn store pin bc b).1 bc2 hv2 h
    | some e =>
      rw [show AddBlock hashFn store pin bc b
            = ((AddBlock hashFn store pin bc b).1, some e) from by
          rw [← hstep]] at h
      simp at h

/-- The validation loop succeeds exactly when every adjacent pair passes
the pair check. -/
theorem chainValidFrom_iff_chain (hashFn : HashInput → String) :
    ∀ bs : List Block,
      chainValidFrom hashFn bs = true
        ↔ List.Chain' (fun x y => pairValid hashFn x y = true) bs := by
  intro bs
  induction bs with
  | nil => simp [chainValidFrom]
  | cons a tail ih =>
    cases tail with
    | nil => simp [chainValidFrom]
    | cons c rest =>
      rw [List.chain'_cons]
      unfold chainValidFrom
      rw [Bool.and_eq_true, ih]

/-- The validation loop succeeds exactly when the spec invariant on
subsequent blocks holds, in index form. -/
theorem chainValidFrom_iff_spec (hashFn : HashInput → String) (bs : List Block) :
    chainValidFrom hashFn bs = true ↔ specSubsequentOk hashFn bs := by
  rw [chainValidFrom_iff_chain hashFn bs, List.chain'_iff_get]
  constructor
  · intro hR i h
    have hpair := hR i (by omega)
    rw [pairValid_iff] at hpair
    exact hpair
  · intro hs i h
    rw [pairValid_iff]
    exact hs i (by omega)

/-- Whatever fuel a halting run of the mining loop took, the returned block
is hash-consistent and meets the difficulty target of the input block. -/
theorem mine_some (hashFn : HashInput → String) :
    ∀ (fuel : Nat) (b b2 : Block), Mine hashFn fuel b = some b2 →
      b2.Hash = CalculateHash hashFn b2
        ∧ b.Difficulty ≤ leadingZeroCount b2.Hash.data := by
  intro fuel
  induction fuel with
  | zero => intro b b2 h; simp [Mine] at h
  | succ fuel ih =>
    intro b b2 h
    unfold Mine at h
    dsimp only at h
    split at h
    · rw [Option.some_inj] at h
      subst h
      refine ⟨rfl, ?_⟩
      rename_i hcond
      rw [strHasPref_target_iff] at hcond
      exact hcond
    · have hrec := ih _ b2 h
      exact ⟨hrec.1, hrec.2⟩

/-- With difficulty zero the first iteration of the mining loop already
meets the target: one unit of fuel returns the block with only its hash
recomputed. -/
theorem mine_zero (hashFn : HashInput → String) (b : Block) (hd : b.Difficulty = 0) :
    Mine hashFn 1 b = some { b with Hash := CalculateHash hashFn b } := by
  unfold Mine
  have hcond : strHasPref
      ({ b with Hash := CalculateHash hashFn b } : Block).Hash
      (target b.Difficulty) = true := by
    rw [strHasPref_target_iff, hd]
    omega
  simp [hcond]

/-! Claim theorems. -/

/-- Claim C1: on receipt of a CHAIN_RESPONSE carrying a remote chain, the
local chain is replaced exactly when the remote chain has strictly more
blocks and passes IsValid; in every other case (shorter, equal length, or
invalid) the local chain is left unchanged. -/
theorem chain_response_adopts_iff_longer_and_valid
    (hashFn : HashInput → String) (lc rc : Blockchain) :
    (rc.Blocks.length > lc.Blocks.length → IsValid hashFn rc = true →
      handleChainResponse hashFn (some lc) rc = some rc)
    ∧ (¬ (rc.Blocks.length > lc.Blocks.length ∧ IsValid hashFn rc = true) →
      handleChainResponse hashFn (some lc) rc = some lc) := by
  constructor
  · intro h1 h2
    simp [handleChainResponse, h1, h2]
  · intro h
    by_cases h1 : rc.Blocks.length > lc.Blocks.length
    · have h2 : IsValid hashFn rc ≠ true := fun hv => h ⟨h1, hv⟩
      simp [handleChainResponse, h1, h2]
    · simp [handleChainResponse, h1]

/-- Witness for claim C1: a longer valid remote chain is adopted over a
one-block local chain, and a shorter remote chain is discarded. -/
theorem chain_response_adoption_runs :
    handleChainResponse hashFn0 (some bc1) bc2 = some bc2
    ∧ handleChainResponse hashFn0 (some bc2) bc1 = some bc2 := by
  constructor
  · exact (chain_response_adopts_iff_longer_and_valid hashFn0 bc1 bc2).1
      (by simp [bc1, bc2]) rfl
  · exact (chain_response_adopts_iff_longer_and_valid hashFn0 bc2 bc1).2
      (fun hc => by simp [bc1, bc2] at hc)

/-- Claim C2: an append onto a non-empty chain fails with the linkage error
when the previous hash differs from the hash of the latest block, fails
with the proof-of-work error when the recomputed hash differs from the
stored one or the leading-zero target is missed, and otherwise (store and
pin succeeding) appends the block at the end; an append onto the empty
chain bypasses the linkage check. -/
theorem append_block_checks_and_appends (hashFn : HashInput → String)
    (store : Block → Except String String) (pin : String → Except String Unit)
    (bc : Blockchain) (b previousBlock : Block)
    (hlast : bc.Blocks.getLast? = some previousBlock) :
    (b.PrevHash ≠ previousBlock.Hash →
      AddBlock hashFn store pin bc b = (bc, some ChainError.invalidPrevHash))
    ∧ (b.PrevHash = previousBlock.Hash →
      (CalculateHash hashFn b ≠ b.Hash
        ∨ leadingZeroCount b.Hash.data < b.Difficulty) →
      AddBlock hashFn store pin bc b = (bc, some ChainError.invalidProofOfWork))
    ∧ (b.PrevHash = previousBlock.Hash → ValidateBlock hashFn b = true →
      ∀ ch, store b = Except.ok ch → pin ch = Except.ok () →
      AddBlock hashFn store pin bc b
        = ({ bc with Blocks := bc.Blocks ++ [b] }, Option.none))
    ∧ (∀ bcE : Blockchain, bcE.Blocks = [] →
      ∀ ch, store b = Except.ok ch → pin ch = Except.ok () →
      AddBlock hashFn store pin bcE b
        = ({ bcE with Blocks := [b] }, Option.none)) := by
  refine ⟨?_, ?_, ?_, ?_⟩
  · intro hne
    simp [AddBlock, checkBlock, hlast, hne]
  · intro heq hbad
    have hv : ¬ ValidateBlock hashFn b = true := by
      rw [validateBlock_iff]
      rintro ⟨hh, hz⟩
      rcases hbad with hbad | hbad
      · exact hbad hh
      · omega
    simp [AddBlock, checkBlock, hlast, heq, hv]
  · intro heq hval ch hs hp
    simp [AddBlock, checkBlock, hlast, heq, hval, hs, hp]
  · intro bcE hE ch hs hp
    simp [AddBlock, checkBlock, hE, hs, hp]

/-- Witness for claim C2: against the one-block chain, a mislinked block is
rejected with the linkage error, a hash-inconsistent block with the
proof-of-work error, a well-linked valid block is appended, and any block
is accepted on the empty chain. -/
theorem append_block_checks_runs :
    AddBlock hashFn0 storeOk pinOk bc1 bBadLink = (bc1, some ChainError.invalidPrevHash)
    ∧ AddBlock hashFn0 storeOk pinOk bc1 bBadPow = (bc1, some ChainError.invalidProofOfWork)
    ∧ AddBlock hashFn0 storeOk pinOk bc1 b1
        = ({ Blocks := [g0, b1], Difficulty := 0 }, Option.none)
    ∧ AddBlock hashFn0 storeOk pinOk bc0 bBadLink
        = ({ Blocks := [bBadLink], Difficulty := 0 }, Option.none) := by
  refine ⟨?_, ?_, ?_, ?_⟩
  · exact (append_block_checks_and_appends hashFn0 storeOk pinOk bc1 bBadLink g0 rfl).1
      (by simp [bBadLink, g0])
  · exact (append_block_checks_and_appends hashFn0 storeOk pinOk bc1 bBadPow g0 rfl).2.1
      rfl (Or.inl (by simp [bBadPow, CalculateHash, hashFn0]))
  · exact (append_block_checks_and_appends hashFn0 storeOk pinOk bc1 b1 g0 rfl).2.2.1
      rfl rfl "Qm" rfl rfl
  · exact (append_block_checks_and_appends hashFn0 storeOk pinOk bc1 bBadLink g0 rfl).2.2.2
      bc0 rfl "Qm" rfl rfl

/-- Counterexample to claim C3: when the backup store fails during the
append of a block that passes every chain check, AddBlock surfaces the
error but the block is NOT appended — the chain is returned unchanged, so
the appended block is absent from it. -/
theorem store_failure_prevents_append :
    AddBlock hashFn0 storeFail pinOk bc1 b1
        = (bc1, some (ChainError.storeFailed "store down"))
    ∧ b1 ∉ bc1.Blocks := by
  refine ⟨rfl, ?_⟩
  simp [bc1, b1, g0]

/-- Claim C3 as amended: when the durable store of a block fails during an
append whose chain checks pass (or whose chain is empty), the failure is
surfaced to the caller as an error, the block is not appended, and the
local chain is left unchanged. -/
theorem store_failure_surfaced_without_append (hashFn : HashInput → String)
    (store : Block → Except String String) (pin : String → Except String Unit)
    (bc : Blockchain) (b : Block) (m : String)
    (hok : bc.Blocks = []
      ∨ ∃ previousBlock, bc.Blocks.getLast? = some previousBlock
          ∧ b.PrevHash = previousBlock.Hash ∧ ValidateBlock hashFn b = true)
    (hstore : store b = Except.error m) :
    AddBlock hashFn store pin bc b = (bc, some (ChainError.storeFailed m)) := by
  rcases hok with hE | ⟨previousBlock, hlast, heq, hval⟩
  · simp [AddBlock, checkBlock, hE, hstore]
  · simp [AddBlock, checkBlock, hlast, heq, hval, hstore]

/-- Witness for the amended claim C3: a concrete failing store surfaces its
error and leaves the one-block chain unchanged. -/
theorem store_failure_surfaced_runs :
    AddBlock hashFn0 storeFail pinOk bc1 b1
      = (bc1, some (ChainError.storeFailed "store down")) :=
  store_failure_surfaced_without_append hashFn0 storeFail pinOk bc1 b1 "store down"
    (Or.inr ⟨g0, rfl, rfl, rfl⟩) rfl

/-- Claim C4: on receipt of a NEW_BLOCK carrying a block, the handler
attempts the append; on success the block is re-broadcast as a NEW_BLOCK
message to every connected peer, and on failure the message is dropped
with no outbound message at all — in particular no rejection is sent. -/
theorem new_block_flooded_on_success_dropped_on_failure
    (hashFn : HashInput → String)
    (store : Block → Except String String) (pin : String → Except String Unit)
    (myAddress : String) (peers : List String) (bc : Blockchain) (b : Block) :
    ((AddBlock hashFn store pin bc b).2 = Option.none →
      handleNewBlock hashFn store pin myAddress peers bc b
        = ((AddBlock hashFn store pin bc b).1,
           peers.map fun p =>
             { peer := p
               msg := { type := MessageType.newBlock
                        content := MessageContent.ofBlock b
                        fromAddr := myAddress, toAddr := Option.none } }))
    ∧ (∀ e, (AddBlock hashFn store pin bc b).2 = some e →
      handleNewBlock hashFn store pin myAddress peers bc b = (bc, [])) := by
  constructor
  · intro h
    rcases hab : AddBlock hashFn store pin bc b with ⟨bc2, err⟩
    rw [hab] at h
    simp only at h
    subst h
    simp [handleNewBlock, BroadcastNewBlock, hab]
  · intro e h
    have h1 := addBlock_error_unchanged hashFn store pin bc b e h
    rcases hab : AddBlock hashFn store pin bc b with ⟨bc2, err⟩
    rw [hab] at h h1
    simp only at h h1
    subst h
    subst h1
    simp [handleNewBlock, hab]

/-- Witness for claim C4: a valid block is appended and flooded to the two
connected peers; a mislinked block leaves the chain unchanged and sends
nothing. -/
theorem new_block_handling_runs :
    handleNewBlock hashFn0 storeOk pinOk "localhost:9001" ["p1", "p2"] bc1 b1
      = ({ Blocks := [g0, b1], Difficulty := 0 },
         [{ peer := "p1"
            msg := { type := MessageType.newBlock
                     content := MessageContent.ofBlock b1
                     fromAddr := "localhost:9001", toAddr := Option.none } },
          { peer := "p2"
            msg := { type := MessageType.newBlock
                     content := MessageContent.ofBlock b1
                     fromAddr := "localhost:9001", toAddr := Option.none } }])
    ∧ handleNewBlock hashFn0 storeOk pinOk "localhost:9001" ["p1", "p2"] bc1 bBadLink
      = (bc1, []) := by
  constructor
  · exact (new_block_flooded_on_success_dropped_on_failure hashFn0 storeOk pinOk
      "localhost:9001" ["p1", "p2"] bc1 b1).1 rfl
  · exact (new_block_flooded_on_success_dropped_on_failure hashFn0 storeOk pinOk
      "localhost:9001" ["p1", "p2"] bc1 bBadLink).2 ChainError.invalidPrevHash rfl

/-- Claim C5: on receipt of a BACKUP_ANNOUNCE content ID, the local chain
is replaced by the fetched chain exactly when the fetch succeeds, the
fetched chain is strictly longer, and every adjacent pair passes the
linkage and proof-of-work validation; any retrieval failure, length
failure or validation failure leaves the local chain unchanged. -/
theorem backup_announce_longer_and_valid_rule (hashFn : HashInput → String)
    (retrieve : String → Except String (List Block))
    (bc : Blockchain) (cid : String) :
    (∀ m, retrieve cid = Except.error m →
      handleIPFSBackup hashFn retrieve bc cid = bc)
    ∧ (∀ blocks, retrieve cid = Except.ok blocks →
      blocks.length ≤ bc.Blocks.length →
      handleIPFSBackup hashFn retrieve bc cid = bc)
    ∧ (∀ blocks, retrieve cid = Except.ok blocks →
      chainValidFrom hashFn blocks = false →
      handleIPFSBackup hashFn retrieve bc cid = bc)
    ∧ (∀ blocks, retrieve cid = Except.ok blocks →
      bc.Blocks.length < blocks.length →
      chainValidFrom hashFn blocks = true →
      handleIPFSBackup hashFn retrieve bc cid
        = { bc with Blocks := blocks }) := by
  refine ⟨?_, ?_, ?_, ?_⟩
  · intro m hr
    simp [handleIPFSBackup, hr]
  · intro blocks hr hle
    have : ¬ bc.Blocks.length < blocks.length := by omega
    simp [handleIPFSBackup, hr, this]
  · intro blocks hr hbad
    by_cases hlen : bc.Blocks.length < blocks.length
    · simp [handleIPFSBackup, RestoreFromIPFS, hr, hbad, hlen]
    · simp [handleIPFSBackup, hr, hlen]
  · intro blocks hr hlen hval
    simp [handleIPFSBackup, RestoreFromIPFS, hr, hlen, hval]

/-- Witness for claim C5: a longer valid fetched chain replaces the
one-block chain; a failing fetch and a longer but invalid fetched chain
leave it unchanged. -/
theorem backup_announce_runs :
    handleIPFSBackup hashFn0 (retrieveOf [g0, b1]) bc1 "cid"
      = { Blocks := [g0, b1], Difficulty := 0 }
    ∧ handleIPFSBackup hashFn0 retrieveFail bc1 "cid" = bc1
    ∧ handleIPFSBackup hashFn0 (retrieveOf [g0, bBadLink]) bc1 "cid" = bc1 := by
  refine ⟨?_, ?_, ?_⟩
  · exact (backup_announce_longer_and_valid_rule hashFn0 (retrieveOf [g0, b1])
      bc1 "cid").2.2.2 [g0, b1] rfl (by simp [bc1]) rfl
  · exact (backup_announce_longer_and_valid_rule hashFn0 retrieveFail
      bc1 "cid").1 "fetch failed" rfl
  · exact (backup_announce_longer_and_valid_rule hashFn0 (retrieveOf [g0, bBadLink])
      bc1 "cid").2.2.1 [g0, bBadLink] rfl rfl

/-- Claim C6: every chain produced from the empty chain by a sequence of
successful AddBlock calls — a genesis append followed by any number of
further appends — passes IsValid. -/
theorem chains_built_by_appends_are_valid (hashFn : HashInput → String)
    (store : Block → Except String String) (pin : String → Except String Unit)
    (d : Nat) (bs : List Block) (bc2 : Blockchain)
    (h : appendAll hashFn store pin { Blocks := [], Difficulty := d } bs
          = (bc2, Option.none)) :
    IsValid hashFn bc2 = true :=
  appendAll_valid hashFn store pin bs { Blocks := [], Difficulty := d } bc2 rfl h

/-- Witness for claim C6: the chain built by appending a genesis block and
one successor is valid. -/
theorem chains_built_by_appends_runs :
    IsValid hashFn0 { Blocks := [g0, b1], Difficulty := 0 } = true :=
  chains_built_by_appends_are_valid hashFn0 storeOk pinOk 0 [g0, b1]
    { Blocks := [g0, b1], Difficulty := 0 } rfl

/-- Claim C7: every halting run of the mining loop returns a block whose
stored hash equals the hash recomputed from its final fields and has at
least difficulty-many leading zero characters; with difficulty zero one
iteration suffices and the nonce stays zero. -/
theorem mine_meets_difficulty_target (hashFn : HashInput → String) (b : Block) :
    (∀ fuel b2, Mine hashFn fuel b = some b2 →
      b2.Hash = CalculateHash hashFn b2
        ∧ b.Difficulty ≤ leadingZeroCount b2.Hash.data)
    ∧ (b.Difficulty = 0 → b.Nonce = 0 →
      ∃ b2, Mine hashFn 1 b = some b2 ∧ b2.Nonce = 0
        ∧ b2.Hash = CalculateHash hashFn b2) := by
  constructor
  · intro fuel b2 h
    exact mine_some hashFn fuel b b2 h
  · intro hd hn
    refine ⟨{ b with Hash := CalculateHash hashFn b }, mine_zero hashFn b hd, hn, rfl⟩

/-- Witness for claim C7: mining the difficulty-zero genesis block with one
unit of fuel returns it unchanged, hash-consistent and meeting the target. -/
theorem mine_runs :
    (g0.Hash = CalculateHash hashFn0 g0
      ∧ g0.Difficulty ≤ leadingZeroCount g0.Hash.data)
    ∧ ∃ b2, Mine hashFn0 1 g0 = some b2 ∧ b2.Nonce = 0
        ∧ b2.Hash = CalculateHash hashFn0 b2 :=
  ⟨(mine_meets_difficulty_target hashFn0 g0).1 1 g0 rfl,
   (mine_meets_difficulty_target hashFn0 g0).2 rfl rfl⟩

/-- Claim C8: block validation recomputes the hash and returns true exactly
when the recomputed hash equals the stored hash and the stored hash has at
least difficulty-many leading zero characters; the recomputed hash of a
valid block equals its stored hash (and recomputation is a pure function,
so it is stable across repeated calls); the predecessor-hash check is
applied at append time, when a predecessor exists. -/
theorem validate_block_recomputed_hash_rule (hashFn : HashInput → String) (b : Block) :
    (ValidateBlock hashFn b = true ↔
      (CalculateHash hashFn b = b.Hash
        ∧ b.Difficulty ≤ leadingZeroCount b.Hash.data))
    ∧ (ValidateBlock hashFn b = true → CalculateHash hashFn b = b.Hash)
    ∧ (∀ (store : Block → Except String String) (pin : String → Except String Unit)
        (bc : Blockchain) (previousBlock : Block),
      bc.Blocks.getLast? = some previousBlock →
      b.PrevHash ≠ previousBlock.Hash →
      AddBlock hashFn store pin bc b = (bc, some ChainError.invalidPrevHash)) := by
  refine ⟨validateBlock_iff hashFn b, ?_, ?_⟩
  · intro hv
    exact ((validateBlock_iff hashFn b).mp hv).1
  · intro store pin bc previousBlock hlast hne
    simp [AddBlock, checkBlock, hlast, hne]

/-- Witness for claim C8: the valid genesis block passes validation and its
recomputed hash is its stored hash; a mislinked block is rejected at
append. -/
theorem validate_block_runs :
    ValidateBlock hashFn0 g0 = true
    ∧ CalculateHash hashFn0 g0 = g0.Hash
    ∧ AddBlock hashFn0 storeOk pinOk bc1 bBadLink
        = (bc1, some ChainError.invalidPrevHash) :=
  ⟨(validate_block_recomputed_hash_rule hashFn0 g0).1.mpr ⟨rfl, by simp [g0, leadingZeroCount]⟩,
   (validate_block_recomputed_hash_rule hashFn0 g0).2.1 rfl,
   (validate_block_recomputed_hash_rule hashFn0 bBadLink).2.2 storeOk pinOk bc1 g0 rfl
     (by simp [bBadLink, g0])⟩

/-- Counterexample to claim C9: IsValid does not check that the genesis
block is well-formed. The one-block chain whose single block has index 1
and a nonempty previous hash passes IsValid, yet violates the chain
invariant of the spec. -/
theorem is_valid_accepts_malformed_genesis :
    IsValid hashFn0 badChain = true
    ∧ ¬ specChainInvariant hashFn0 badChain := by
  refine ⟨rfl, ?_⟩
  intro hinv
  have hg := hinv.1 badG rfl
  have hix : badG.Index = 0 := hg.1
  simp [badG] at hix

/-- Claim C9 as amended: IsValid returns true exactly for the chains whose
every subsequent block satisfies the linkage and hash invariants relative
to its predecessor; well-formedness of the genesis block itself is not
checked. -/
theorem is_valid_iff_subsequent_blocks_ok (hashFn : HashInput → String)
    (bc : Blockchain) :
    IsValid hashFn bc = true ↔ specSubsequentOk hashFn bc.Blocks :=
  chainValidFrom_iff_spec hashFn bc.Blocks

/-- Claim C10: an append onto the empty chain performs neither the linkage
check nor the proof-of-work check — any block is accepted as the first
block when the store and pin succeed, and only the backup-store side
effect can make the call fail. -/
theorem empty_chain_append_unchecked (hashFn : HashInput → String)
    (store : Block → Except String String) (pin : String → Except String Unit)
    (bc : Blockchain) (b : Block) (hempty : bc.Blocks = []) :
    (∀ ch, store b = Except.ok ch → pin ch = Except.ok () →
      AddBlock hashFn store pin bc b = ({ bc with Blocks := [b] }, Option.none))
    ∧ (∀ m, store b = Except.error m →
      AddBlock hashFn store pin bc b = (bc, some (ChainError.storeFailed m)))
    ∧ (∀ ch m, store b = Except.ok ch → pin ch = Except.error m →
      AddBlock hashFn store pin bc b = (bc, some (ChainError.pinFailed m))) := by
  refine ⟨?_, ?_, ?_⟩
  · intro ch hs hp
    simp [AddBlock, checkBlock, hempty, hs, hp]
  · intro m hs
    simp [AddBlock, checkBlock, hempty, hs]
  · intro ch m hs hp
    simp [AddBlock, checkBlock, hempty, hs, hp]

/-- Witness for claim C10: a block whose stored hash disagrees with its
recomputed hash is nevertheless accepted as the first block of the empty
chain, and with a failing store the same append fails with the store
error. -/
theorem empty_chain_append_runs :
    ValidateBlock hashFn0 bBadPow = false
    ∧ AddBlock hashFn0 storeOk pinOk bc0 bBadPow
        = ({ Blocks := [bBadPow], Difficulty := 0 }, Option.none)
    ∧ AddBlock hashFn0 storeFail pinOk bc0 bBadPow
        = (bc0, some (ChainError.storeFailed "store down")) :=
  ⟨rfl,
   (empty_chain_append_unchecked hashFn0 storeOk pinOk bc0 bBadPow rfl).1 "Qm" rfl rfl,
   (empty_chain_append_unchecked hashFn0 storeFail pinOk bc0 bBadPow rfl).2.1
     "store down" rfl⟩

end AIBlockchain
